import Mathlib

/-!
Verification development for the mPDF tutorial repository.

The repository consists of tutorial notebooks that drive an external
magnetic-pair-distribution-function (mPDF) library: a `MagSpecies` /
`MagStructure` / `MPDFcalculator` stack.  The library implementation itself is
not part of the repository, so the data model and the operations below are
modelled from the repository's design specification (the documented public
contract: inputs, scalar parameters, the pair-accumulation algorithm, the
error taxonomy).  Quantities the specification leaves open (the exact
Uiso-damping kernel, the resolution-convolution kernel, the normalization
constant, the self-scattering peak shape) are carried as explicit parameters
of a `Kernels` structure, constrained only as the specification constrains
them; everything the specification does pin down (the Fourier spin formula,
the `exp(-d/corrLength)` decay, the grid construction, the error behaviour)
is written out concretely.
-/

set_option maxRecDepth 8000

namespace MPDF

/-- Modelled from the spec: a 3-vector with rational components (Cartesian
coordinates in Å for atoms, components of a magnetic moment for spins). -/
abbrev Vec3 : Type := ℚ × ℚ × ℚ

/-- Euclidean dot product of two 3-vectors. -/
def dot (a b : Vec3) : ℚ := a.1 * b.1 + a.2.1 * b.2.1 + a.2.2 * b.2.2

/-- Squared distance between two atomic positions. -/
def distSq (a b : Vec3) : ℚ := dot (b - a) (b - a)

/-- Modelled from the spec: the error taxonomy of the core
(ConfigurationError, DuplicateLabelError, OrderError, ValueError,
KeyNotFound, and the non-real-spin condition). -/
inductive MPDFError where
  | configurationError
  | duplicateLabel
  | orderError
  | valueError
  | keyNotFound
  | nonRealSpin
  deriving DecidableEq

/-- Modelled from the spec: a magnetic species, a named generator of
(atom, spin) sublists defined by propagation vectors `kvecs`, complex basis
vectors (split into rational real parts `basisRe` and imaginary parts
`basisIm`), and an origin.  `label` is `none` while unset; the aggregator
auto-assigns a unique identifier on load. -/
structure MagSpecies where
  label : Option ℕ := none
  kvecs : List Vec3 := []
  basisRe : List Vec3 := []
  basisIm : List Vec3 := []
  origin : Vec3 := (0, 0, 0)
  rmaxAtoms : ℚ := 20
  deriving DecidableEq

/-- Modelled from the spec: a magnetic structure owns an ordered collection of
species, the concatenated atom/spin arrays, scalar attributes (isotropic
displacement parameter `Uiso`, correlation length `corrLength` with `0`
meaning unset/disabled, a fixed scalar form-factor amplitude `ffScalar` used
when no q-dependent form factor is configured), and the calculation index set
`calcIdxs` selecting representative atoms for the self-scattering term.
`atomsMade` records whether `makeAtoms` has run, which gates `makeSpins`. -/
structure MagStructure where
  species : List MagSpecies := []
  atoms : List Vec3 := []
  spins : List Vec3 := []
  atomsMade : Bool := false
  Uiso : ℚ := 1/100
  corrLength : ℚ := 0
  ffScalar : ℚ := 1
  calcIdxs : List ℕ := []
  deriving DecidableEq

/-- Modelled from the spec: the calculator's scalar configuration: `rmin`,
`rmax` (output range in Å), grid step `rstep` (default 0.01 Å, overridable),
resolution parameters `qmin`, `qmax`, `qdamp` (0 meaning unset), and the
amplitudes `ordScale` (correlated pair term) and `paraScale`
(self/paramagnetic term). -/
structure CalcParams where
  rmin : ℚ := 0
  rmax : ℚ := 20
  rstep : ℚ := 1/100
  qmin : ℚ := 0
  qmax : ℚ := 0
  qdamp : ℚ := 0
  ordScale : ℚ := 1
  paraScale : ℚ := 1
  deriving DecidableEq

/-- Modelled from the spec: number of points of the uniform output grid
determined by `rmin`, `rmax` and the fixed grid step. -/
def gridLen (p : CalcParams) : ℕ := (⌊(p.rmax - p.rmin) / p.rstep⌋).toNat + 1

/-- Modelled from the spec: the output grid `r_i = rmin + i * rstep`. -/
def rgrid (p : CalcParams) : List ℚ :=
  (List.range (gridLen p)).map (fun i : ℕ => p.rmin + (i : ℚ) * p.rstep)

/-- Decides whether the midpoint between grid points `j` and `j+1` lies
strictly below the pair distance `d = sqrt dsq`; phrased on squared
distances so that it is decidable over `ℚ`. -/
def midBelow (p : CalcParams) (dsq : ℚ) (j : ℕ) : Bool :=
  decide (p.rmin + ((j : ℚ) + 1/2) * p.rstep < 0) ||
    (decide (0 ≤ p.rmin + ((j : ℚ) + 1/2) * p.rstep) &&
      decide ((p.rmin + ((j : ℚ) + 1/2) * p.rstep) ^ 2 < dsq))

/-- Modelled from the spec: the grid bin nearest to the pair separation
`d = sqrt dsq` (computed by counting bin midpoints below `d`, which clamps
to the grid ends). -/
def binIndex (p : CalcParams) (dsq : ℚ) : ℕ :=
  (List.range (gridLen p - 1)).countP (midBelow p dsq)

/-- Modelled from the spec: whether a pair separation `d = sqrt dsq` lies
within `[rmin, rmax]`, phrased on squared distances. -/
def inRangeB (p : CalcParams) (dsq : ℚ) : Bool :=
  (decide (p.rmin ≤ 0) || decide (p.rmin ^ 2 ≤ dsq)) &&
    (decide (0 ≤ p.rmax) && decide (dsq ≤ p.rmax ^ 2))

/-- Modelled from the spec: the pair term between two spins resolved along and
perpendicular to the interatomic vector; the peak amplitude is the dot product
of the spin components perpendicular to the pair vector, which determines the
sign and amplitude of each peak. -/
def projWeight (σ τ d : Vec3) : ℚ := dot σ τ - dot σ d * dot τ d / dot d d

/-- Modelled from the spec: the correlation-length decay factor
`exp (-d / corrLength)`; `corrLength ≤ 0` means unset and disables the
factor. -/
noncomputable def corrEnv (ξ dsq : ℚ) : ℝ :=
  if ξ ≤ 0 then 1 else Real.exp (-(Real.sqrt ((dsq : ℝ))) / (ξ : ℝ))

/-- Modelled from the spec: the quantities the specification declares
unrecoverable from the notebooks (the Uiso damping kernel, the
resolution/termination filter, the normalization constant, the
self-scattering peak shape) are carried as parameters, constrained only as
the specification constrains them: damping envelopes are positive, the
normalization is a positive structure-dependent constant, and the filter is
a convolution on the same grid, hence length-preserving. -/
structure Kernels where
  uisoEnv : ℚ → ℚ → ℝ
  uisoEnv_pos : ∀ u dsq, 0 < uisoEnv u dsq
  normConst : ℕ → ℝ
  normConst_pos : ∀ n, 0 < normConst n
  resFilter : ℚ → ℚ → ℚ → List ℝ → List ℝ
  resFilter_length : ∀ a b c l, (resFilter a b c l).length = l.length
  selfShape : ℚ → ℝ

/-- The index-aligned list of (atom, spin) sites exposed to the calculator. -/
def pairList (s : MagStructure) : List (Vec3 × Vec3) := s.atoms.zip s.spins

/-- Modelled from the spec: the contribution one ordered pair of sites makes
to output bin `i`: zero unless the separation is nonzero (coincident sites are
excluded), lies within `[rmin, rmax]`, and bins to `i`; otherwise the
projection term times the fixed form-factor amplitude squared, the Uiso
damping envelope, and the correlation-length decay. -/
noncomputable def pairContrib (p : CalcParams) (s : MagStructure) (K : Kernels)
    (i : ℕ) (x y : Vec3 × Vec3) : ℝ :=
  if distSq x.1 y.1 ≠ 0 ∧ inRangeB p (distSq x.1 y.1) ∧ binIndex p (distSq x.1 y.1) = i then
    ((projWeight x.2 y.2 (y.1 - x.1) * s.ffScalar ^ 2 : ℚ) : ℝ) *
      K.uisoEnv s.Uiso (distSq x.1 y.1) * corrEnv s.corrLength (distSq x.1 y.1)
  else 0

/-- Modelled from the spec: the accumulated pair signal in bin `i`, summed over
every unordered pair of distinct sites (written as half the sum over ordered
pairs, the weight being symmetric and the diagonal vanishing). -/
noncomputable def rawAt (p : CalcParams) (s : MagStructure) (K : Kernels) (i : ℕ) : ℝ :=
  (1/2) * ((pairList s).map (fun x => ((pairList s).map (fun y => pairContrib p s K i x y)).sum)).sum

/-- The accumulated pair signal over the whole grid. -/
noncomputable def rawSignal (p : CalcParams) (s : MagStructure) (K : Kernels) : List ℝ :=
  (List.range (gridLen p)).map (rawAt p s K)

/-- Modelled from the spec: the resolution/termination filter is applied only
if `qmin`/`qmax`/`qdamp` are set. -/
noncomputable def filtered (p : CalcParams) (K : Kernels) (l : List ℝ) : List ℝ :=
  if p.qmin = 0 ∧ p.qmax = 0 ∧ p.qdamp = 0 then l else K.resFilter p.qmin p.qmax p.qdamp l

/-- Modelled from the spec: the correlated pair-term output: accumulated pair
signal, resolution filter, then the `ordScale` amplitude. -/
noncomputable def pairTermOutput (p : CalcParams) (s : MagStructure) (K : Kernels) : List ℝ :=
  (filtered p K (rawSignal p s K)).map (fun v => (p.ordScale : ℝ) * v)

/-- Modelled from the spec: the normalized mPDF: the pair-term output divided
by the structure-dependent normalization constant. -/
noncomputable def calcNormalizedCore (p : CalcParams) (s : MagStructure) (K : Kernels) : List ℝ :=
  (pairTermOutput p s K).map (fun v => v / K.normConst s.spins.length)

/-- Modelled from the spec: the self/paramagnetic term: a localized peak of
shape `selfShape` with amplitude `paraScale`, counting exactly one
representative atom per distinct entry of the calculation index set. -/
noncomputable def selfSignal (p : CalcParams) (s : MagStructure) (K : Kernels) : List ℝ :=
  (rgrid p).map (fun r =>
    (p.paraScale : ℝ) * ((s.ffScalar : ℚ) : ℝ) ^ 2 * (s.calcIdxs.dedup.length : ℝ) * K.selfShape r)

/-- Modelled from the spec: the unnormalized mPDF in physical units, the
total including the self/paramagnetic term. -/
noncomputable def calcUnnormalizedCore (p : CalcParams) (s : MagStructure) (K : Kernels) : List ℝ :=
  List.zipWith (fun a b => a + b) (pairTermOutput p s K) (selfSignal p s K)

/-- Modelled from the spec: the combined calculation returning the grid, the
normalized mPDF and the unnormalized total-including-self-term mPDF. -/
noncomputable def calcBothCore (p : CalcParams) (s : MagStructure) (K : Kernels) :
    List ℚ × List ℝ × List ℝ :=
  (rgrid p, calcNormalizedCore p s K, calcUnnormalizedCore p s K)

/-- Modelled from the spec: the calculator object: scalar configuration plus a
shared (not copied) handle to a magnetic structure; constructible with or
without the structure argument. -/
structure MPDFcalculator where
  params : CalcParams := {}
  magstruc : Option MagStructure := none

/-- Constructor of a calculator, with or without a magnetic structure. -/
def mkMPDFcalculator (ms : Option MagStructure) : MPDFcalculator :=
  { params := {}, magstruc := ms }

/-- Late attachment of a magnetic structure by assigning the `magstruc`
attribute. -/
def MPDFcalculator.setMagstruc (c : MPDFcalculator) (s : MagStructure) : MPDFcalculator :=
  { c with magstruc := some s }

/-- The structure a calculator computes on (an empty default when unset). -/
def MPDFcalculator.struc (c : MPDFcalculator) : MagStructure := c.magstruc.getD {}

/-- Modelled from the spec: `calc()` with default arguments: the grid and the
normalized mPDF. -/
noncomputable def MPDFcalculator.calcN (c : MPDFcalculator) (K : Kernels) : List ℚ × List ℝ :=
  (rgrid c.params, calcNormalizedCore c.params c.struc K)

/-- Modelled from the spec: `calc(normalized=False)`: the grid and the
unnormalized mPDF. -/
noncomputable def MPDFcalculator.calcD (c : MPDFcalculator) (K : Kernels) : List ℚ × List ℝ :=
  (rgrid c.params, calcUnnormalizedCore c.params c.struc K)

/-- Modelled from the spec: `calc(both=True)`: grid, normalized, and
unnormalized total. -/
noncomputable def MPDFcalculator.calcBothM (c : MPDFcalculator) (K : Kernels) :
    List ℚ × List ℝ × List ℝ :=
  calcBothCore c.params c.struc K

/-- Modelled from the spec: `plot()` displays exactly the `(r, f)` points that
`calc()` returns. -/
noncomputable def MPDFcalculator.plotData (c : MPDFcalculator) (K : Kernels) : List (ℚ × ℝ) :=
  (rgrid c.params).zip (calcNormalizedCore c.params c.struc K)

/-- A structure with its atom and spin arrays replaced. -/
def MagStructure.withArrays (s : MagStructure) (a sp : List Vec3) : MagStructure :=
  { s with atoms := a, spins := sp }

/-- Modelled from the spec: `makeAtoms` generates the atom array (the
generated positions are passed in, the tiling itself being the species
builder's job) and records that atoms exist. -/
def MagStructure.makeAtoms (s : MagStructure) (gen : List Vec3) : MagStructure :=
  { s with atoms := gen, atomsMade := true }

/-- Modelled from the spec: `makeSpins` positions one spin per generated atom
(via the species' generator `gen`); invoked before `makeAtoms` on first
generation it fails fast with an OrderError instead of silently defaulting. -/
def MagStructure.makeSpins (s : MagStructure) (gen : Vec3 → Vec3) :
    Except MPDFError MagStructure :=
  if s.atomsMade then .ok { s with spins := s.atoms.map gen } else .error .orderError

/-- A freshly built magnetic structure whose arrays have never been
generated. -/
def newMagStructure (specs : List MagSpecies) : MagStructure := { species := specs }

/-- The labels already taken in a structure's species collection. -/
def usedLabels (s : MagStructure) : List ℕ := s.species.filterMap MagSpecies.label

/-- Modelled from the spec: a fresh identifier, distinct from every label
already in use. -/
def freshLabel (s : MagStructure) : ℕ := (usedLabels s).foldr max 0 + 1

/-- Modelled from the spec: `loadSpecies` appends the species to the ordered
collection; a label collision fails with a DuplicateLabelError, and an unset
label is auto-assigned a unique identifier. -/
def MagStructure.loadSpecies (s : MagStructure) (sp : MagSpecies) :
    Except MPDFError MagStructure :=
  match sp.label with
  | some l =>
      if l ∈ usedLabels s then .error .duplicateLabel
      else .ok { s with species := s.species ++ [sp] }
  | none => .ok { s with species := s.species ++ [{ sp with label := some (freshLabel s) }] }

/-- Real-valued 3-vectors, the type of generated spins. -/
abbrev RVec3 : Type := ℝ × ℝ × ℝ

/-- Complex-valued 3-vectors, carrying the complex basis vectors and the
Fourier sums through the generation. -/
abbrev CVec3 : Type := ℂ × ℂ × ℂ

/-- A complex basis vector assembled from its rational real and imaginary
parts. -/
def toC (re im : Vec3) : CVec3 :=
  (⟨(re.1 : ℝ), (im.1 : ℝ)⟩, ⟨(re.2.1 : ℝ), (im.2.1 : ℝ)⟩, ⟨(re.2.2 : ℝ), (im.2.2 : ℝ)⟩)

/-- Componentwise scaling of a complex 3-vector by a complex number. -/
def smulC (z : ℂ) (v : CVec3) : CVec3 := (z * v.1, z * v.2.1, z * v.2.2)

/-- Modelled from the spec: the phase factor `exp (2 π i φ)` attached to a
propagation vector at phase `φ = k ⬝ (T + d - origin)`. -/
noncomputable def phaseFactor (φ : ℚ) : ℂ :=
  Complex.exp (((2 * Real.pi * (φ : ℝ) : ℝ) : ℂ) * Complex.I)

/-- Componentwise real part of a complex 3-vector. -/
def reC (v : CVec3) : RVec3 := (v.1.re, v.2.1.re, v.2.2.re)

/-- The (propagation vector, basis vector) pairs of a species. -/
def kvecPairs (sp : MagSpecies) : List (Vec3 × Vec3 × Vec3) :=
  sp.kvecs.zip (sp.basisRe.zip sp.basisIm)

/-- Modelled from the spec: the complex Fourier sum
`Σ_k S_k * exp (2 π i k ⬝ x)` over the (propagation, basis) pairs. -/
noncomputable def spinSumC (prs : List (Vec3 × Vec3 × Vec3)) (x : Vec3) : CVec3 :=
  (prs.map (fun pr => smulC (phaseFactor (dot pr.1 x)) (toC pr.2.1 pr.2.2))).sum

/-- Modelled from the spec: the generated spin: the real part of the complex
Fourier sum evaluated at `T + d - origin`. -/
noncomputable def makeSpinFree (prs : List (Vec3 × Vec3 × Vec3)) (origin T d : Vec3) : RVec3 :=
  reC (spinSumC prs (T + d - origin))

/-- The spin a species generates at lattice translation `T` and basis
position `d`. -/
noncomputable def MagSpecies.makeSpinAt (sp : MagSpecies) (T d : Vec3) : RVec3 :=
  makeSpinFree (kvecPairs sp) sp.origin T d

/-- The explicit trigonometric form of one (propagation, basis) pair's
contribution: `Re S_k * cos (2 π φ) - Im S_k * sin (2 π φ)`. -/
noncomputable def cosSinTerm (pr : Vec3 × Vec3 × Vec3) (x : Vec3) : RVec3 :=
  (Real.cos (2 * Real.pi * ((dot pr.1 x : ℚ) : ℝ)) * ((pr.2.1.1 : ℚ) : ℝ) -
      Real.sin (2 * Real.pi * ((dot pr.1 x : ℚ) : ℝ)) * ((pr.2.2.1 : ℚ) : ℝ),
    Real.cos (2 * Real.pi * ((dot pr.1 x : ℚ) : ℝ)) * ((pr.2.1.2.1 : ℚ) : ℝ) -
      Real.sin (2 * Real.pi * ((dot pr.1 x : ℚ) : ℝ)) * ((pr.2.2.2.1 : ℚ) : ℝ),
    Real.cos (2 * Real.pi * ((dot pr.1 x : ℚ) : ℝ)) * ((pr.2.1.2.2 : ℚ) : ℝ) -
      Real.sin (2 * Real.pi * ((dot pr.1 x : ℚ) : ℝ)) * ((pr.2.2.2.2 : ℚ) : ℝ))

/-- Squared magnitude of the imaginary part of a complex 3-vector. -/
def imMagSq (v : CVec3) : ℝ := v.1.im ^ 2 + v.2.1.im ^ 2 + v.2.2.im ^ 2

/-- Modelled from the spec: the generated spin is ill-formed when the
imaginary part of the Fourier sum exceeds the numerical tolerance. -/
def spinIllFormed (sp : MagSpecies) (T d : Vec3) (tol : ℚ) : Prop :=
  ((tol : ℝ)) ^ 2 < imMagSq (spinSumC (kvecPairs sp) (T + d - sp.origin))

open Classical in
/-- Modelled from the spec: spin generation with the validity check: a
non-negligible imaginary part is flagged as a non-real spin rather than
silently truncated; otherwise the real part is returned. -/
noncomputable def MagSpecies.makeSpinChecked (sp : MagSpecies) (T d : Vec3) (tol : ℚ) :
    Except MPDFError RVec3 :=
  if spinIllFormed sp T d tol then .error .nonRealSpin else .ok (sp.makeSpinAt T d)

/-- Modelled from the spec: the mutable-object store: calculators hold
borrowed handles into it, so structure mutation is visible to every
calculator referencing the structure, while `copy` allocates a fresh,
independent duplicate. -/
structure World where
  strucs : ℕ → MagStructure
  next : ℕ

/-- A calculator as held by a refinement loop: its scalar configuration plus
a borrowed reference (not a copy) to a structure in the store. -/
structure CalcHandle where
  params : CalcParams
  sref : ℕ

/-- Modelled from the spec: deep duplication of a structure: a fresh slot is
allocated and the contents duplicated, sharing no mutable state with the
original. -/
def World.copyStructure (w : World) (i : ℕ) : World × ℕ :=
  ({ strucs := Function.update w.strucs w.next (w.strucs i), next := w.next + 1 }, w.next)

/-- In-place mutation of a stored structure's spin array. -/
def World.setSpins (w : World) (i : ℕ) (sp : List Vec3) : World :=
  { w with strucs := Function.update w.strucs i { w.strucs i with spins := sp } }

/-- In-place mutation of a stored structure's isotropic displacement
parameter. -/
def World.setUiso (w : World) (i : ℕ) (v : ℚ) : World :=
  { w with strucs := Function.update w.strucs i { w.strucs i with Uiso := v } }

/-- In-place mutation of a stored structure's correlation length. -/
def World.setCorrLength (w : World) (i : ℕ) (v : ℚ) : World :=
  { w with strucs := Function.update w.strucs i { w.strucs i with corrLength := v } }

/-- Modelled from the spec: deep duplication of a calculator: the scalar
configuration is duplicated by value and the referenced structure is deep
copied into a fresh slot. -/
def World.copyCalculator (w : World) (c : CalcHandle) : World × CalcHandle :=
  ((w.copyStructure c.sref).1, { params := c.params, sref := (w.copyStructure c.sref).2 })

/-- Running `calc(both=True)` through a calculator handle: a pure function of
the configuration and the referenced structure's current contents. -/
noncomputable def runCalc (K : Kernels) (w : World) (c : CalcHandle) :
    List ℚ × List ℝ × List ℝ :=
  calcBothCore c.params (w.strucs c.sref) K

/-- Commands of a refinement loop: mutate a stored structure's spins, or run a
calculator. -/
inductive Cmd where
  | setspins : ℕ → List Vec3 → Cmd
  | runcalc : CalcHandle → Cmd

/-- Modelled from the spec: synchronous single-threaded execution of a command
sequence, collecting each calculation's output. -/
noncomputable def execCmds (K : Kernels) (w : World) : List Cmd → List (List ℚ × List ℝ × List ℝ)
  | [] => []
  | Cmd.setspins i sp :: rest => execCmds K (w.setSpins i sp) rest
  | Cmd.runcalc c :: rest => runCalc K w c :: execCmds K w rest

/-- The two-spin antiferromagnetic dimer of the first tutorial: atoms at
(0,0,0) and (4,0,0) Å with spins (0,0,1) and (0,0,-1). -/
def dimerAFM : MagStructure :=
  { atoms := [((0 : ℚ), (0 : ℚ), (0 : ℚ)), ((4 : ℚ), (0 : ℚ), (0 : ℚ))],
    spins := [((0 : ℚ), (0 : ℚ), (1 : ℚ)), ((0 : ℚ), (0 : ℚ), (-1 : ℚ))],
    atomsMade := true }

/-- The same dimer with the second spin flipped to (0,0,1) (ferromagnetic). -/
def dimerFM : MagStructure :=
  { atoms := [((0 : ℚ), (0 : ℚ), (0 : ℚ)), ((4 : ℚ), (0 : ℚ), (0 : ℚ))],
    spins := [((0 : ℚ), (0 : ℚ), (1 : ℚ)), ((0 : ℚ), (0 : ℚ), (1 : ℚ))],
    atomsMade := true }

/-- The calculator configuration of the dimer example: `rmin = 0`,
`rmax = 15`, remaining parameters at their defaults. -/
def dimerParams : CalcParams := { rmin := 0, rmax := 15 }

/-- A coarse-grid configuration (`rstep = 1`) used for concrete
counterexample evaluation. -/
def coarseParams : CalcParams := { rmin := 0, rmax := 15, rstep := 1 }

/-- The antiferromagnetic dimer with a finite correlation length of 8 Å and
otherwise identical attributes and arrays. -/
def dimerAFMcorr : MagStructure :=
  { atoms := [((0 : ℚ), (0 : ℚ), (0 : ℚ)), ((4 : ℚ), (0 : ℚ), (0 : ℚ))],
    spins := [((0 : ℚ), (0 : ℚ), (1 : ℚ)), ((0 : ℚ), (0 : ℚ), (-1 : ℚ))],
    atomsMade := true,
    corrLength := 8 }

/-- A concrete admissible kernel assignment: trivial damping envelope, unit
normalization, identity resolution filter, vanishing self-peak shape. -/
def K0 : Kernels :=
  { uisoEnv := fun _ _ => 1
    uisoEnv_pos := fun _ _ => one_pos
    normConst := fun _ => 1
    normConst_pos := fun _ => one_pos
    resFilter := fun _ _ _ l => l
    resFilter_length := fun _ _ _ _ => rfl
    selfShape := fun _ => 0 }

lemma countP_range_of_iff (n : ℕ) : ∀ (k : ℕ) (P : ℕ → Bool), k ≤ n →
    (∀ j, j < n → (P j = true ↔ j < k)) → (List.range n).countP P = k := by
  induction n with
  | zero =>
    intro k P hk _
    have hk0 : k = 0 := by omega
    simp [hk0]
  | succ n ih =>
    intro k P hk h
    rw [List.range_succ, List.countP_append]
    rcases Nat.lt_or_ge n k with hnk | hnk
    · have hk1 : k = n + 1 := by omega
      subst hk1
      have hPn : P n = true := (h n (Nat.lt_succ_self n)).mpr (Nat.lt_succ_self n)
      have hrest : (List.range n).countP P = n :=
        ih n P (le_refl n)
          (fun j hj => ⟨fun _ => hj, fun _ => (h j (Nat.lt_succ_of_lt hj)).mpr (by omega)⟩)
      simp [hrest, hPn, List.countP_cons]
    · have hPn : P n = false := by
        cases hPn2 : P n with
        | false => rfl
        | true => exact absurd ((h n (Nat.lt_succ_self n)).mp hPn2) (by omega)
      have hrest : (List.range n).countP P = k :=
        ih k P hnk (fun j hj => h j (Nat.lt_succ_of_lt hj))
      simp [hrest, hPn, List.countP_cons]

lemma getD_range_map {α : Type} (d : α) (f : ℕ → α) (n i : ℕ) :
    ((List.range n).map f).getD i d = if i < n then f i else d := by
  rcases Nat.lt_or_ge i n with h | h
  · rw [List.getD_eq_getElem?_getD, List.getElem?_map, List.getElem?_range h, if_pos h]
    rfl
  · rw [List.getD_eq_getElem?_getD, List.getElem?_eq_none (by simpa using h), if_neg (by omega)]
    rfl

lemma getD_map_of_zero (f : ℝ → ℝ) (hf : f 0 = 0) (l : List ℝ) :
    ∀ i, (l.map f).getD i 0 = f (l.getD i 0) := by
  induction l with
  | nil => intro i; simp [hf]
  | cons a t ih =>
    intro i
    cases i with
    | zero => rfl
    | succ i => simpa using ih i

lemma getD_zipWith_add (l₁ : List ℝ) : ∀ (l₂ : List ℝ) (i : ℕ), l₁.length = l₂.length →
    (List.zipWith (fun a b => a + b) l₁ l₂).getD i 0 = l₁.getD i 0 + l₂.getD i 0 := by
  induction l₁ with
  | nil =>
    intro l₂ i hlen
    have : l₂ = [] := by
      cases l₂ with
      | nil => rfl
      | cons b t => simp at hlen
    simp [this]
  | cons a t ih =>
    intro l₂ i hlen
    cases l₂ with
    | nil => simp at hlen
    | cons b t₂ =>
      cases i with
      | zero => rfl
      | succ i =>
        have := ih t₂ i (by simpa using hlen)
        simpa using this

lemma sumlist_map_perm {α : Type} (f : α → ℝ) {l₁ l₂ : List α} (h : l₁.Perm l₂) :
    (l₁.map f).sum = (l₂.map f).sum := (h.map f).sum_eq

lemma doubleSum_perm {α : Type} (f : α → α → ℝ) {l₁ l₂ : List α} (h : l₁.Perm l₂) :
    (l₁.map (fun x => (l₁.map (f x)).sum)).sum = (l₂.map (fun x => (l₂.map (f x)).sum)).sum := by
  have hfun : (fun x => (l₁.map (f x)).sum) = fun x => (l₂.map (f x)).sum :=
    funext fun x => sumlist_map_perm (f x) h
  rw [hfun]
  exact sumlist_map_perm _ h

lemma le_foldr_max (L : List ℕ) : ∀ x ∈ L, x ≤ L.foldr max 0 := by
  induction L with
  | nil => intro x hx; simp at hx
  | cons a t ih =>
    intro x hx
    rcases List.mem_cons.mp hx with h | h
    · subst h; exact le_max_left _ _
    · exact le_trans (ih x h) (le_max_right _ _)

lemma freshLabel_not_mem (s : MagStructure) : freshLabel s ∉ usedLabels s := by
  intro hmem
  have := le_foldr_max (usedLabels s) _ hmem
  unfold freshLabel at this
  omega

lemma sq_lt_sq_iff_of_nonneg {a b : ℚ} (ha : 0 ≤ a) (hb : 0 ≤ b) : a ^ 2 < b ^ 2 ↔ a < b := by
  constructor <;> intro h <;> nlinarith

lemma gridLen_dimerParams : gridLen dimerParams = 1501 := by
  unfold gridLen dimerParams
  norm_num
  rfl

lemma gridLen_coarseParams : gridLen coarseParams = 16 := by
  unfold gridLen coarseParams
  norm_num
  rfl

lemma inRangeB_dimerParams : inRangeB dimerParams 16 = true := by
  unfold inRangeB dimerParams
  norm_num

lemma inRangeB_coarseParams : inRangeB coarseParams 16 = true := by
  unfold inRangeB coarseParams
  norm_num

lemma binIndex_dimerParams : binIndex dimerParams 16 = 400 := by
  unfold binIndex
  rw [gridLen_dimerParams]
  apply countP_range_of_iff 1500 400 _ (by omega)
  intro j hj
  simp only [midBelow, dimerParams, Bool.or_eq_true, Bool.and_eq_true, decide_eq_true_eq]
  have hm0 : (0 : ℚ) ≤ 0 + ((j : ℚ) + 1/2) * (1/100) := by positivity
  constructor
  · rintro (hneg | ⟨-, hsq⟩)
    · linarith
    · have hlt : (0 : ℚ) + ((j : ℚ) + 1/2) * (1/100) < 4 := by nlinarith
      by_contra hc
      push_neg at hc
      have : (400 : ℚ) ≤ (j : ℚ) := by exact_mod_cast hc
      linarith
  · intro hj400
    refine Or.inr ⟨hm0, ?_⟩
    have hle : (j : ℚ) ≤ 399 := by exact_mod_cast Nat.lt_succ_iff.mp (by omega)
    nlinarith

lemma binIndex_coarseParams : binIndex coarseParams 16 = 4 := by
  unfold binIndex
  rw [gridLen_coarseParams]
  apply countP_range_of_iff 15 4 _ (by omega)
  intro j hj
  simp only [midBelow, coarseParams, Bool.or_eq_true, Bool.and_eq_true, decide_eq_true_eq]
  have hm0 : (0 : ℚ) ≤ 0 + ((j : ℚ) + 1/2) * 1 := by positivity
  constructor
  · rintro (hneg | ⟨-, hsq⟩)
    · linarith
    · have hlt : (0 : ℚ) + ((j : ℚ) + 1/2) * 1 < 4 := by nlinarith
      by_contra hc
      push_neg at hc
      have : (4 : ℚ) ≤ (j : ℚ) := by exact_mod_cast hc
      linarith
  · intro hj4
    refine Or.inr ⟨hm0, ?_⟩
    have hle : (j : ℚ) ≤ 3 := by exact_mod_cast Nat.lt_succ_iff.mp (by omega)
    nlinarith

lemma distSq_self (a : Vec3) : distSq a a = 0 := by
  unfold distSq
  rw [sub_self]
  simp [dot]

lemma distSq_comm (a b : Vec3) : distSq a b = distSq b a := by
  simp only [distSq, dot, Prod.fst_sub, Prod.snd_sub]
  ring

lemma projWeight_swap (σ τ a b : Vec3) : projWeight τ σ (a - b) = projWeight σ τ (b - a) := by
  simp only [projWeight, dot, Prod.fst_sub, Prod.snd_sub]
  ring

lemma pairContrib_swap (p : CalcParams) (s : MagStructure) (K : Kernels) (i : ℕ)
    (x y : Vec3 × Vec3) : pairContrib p s K i y x = pairContrib p s K i x y := by
  unfold pairContrib
  rw [distSq_comm y.1 x.1, projWeight_swap x.2 y.2 x.1 y.1]

lemma two_site_rawAt (p : CalcParams) (K : Kernels) (s : MagStructure) (a b σ τ : Vec3)
    (ha : s.atoms = [a, b]) (hs : s.spins = [σ, τ]) (i : ℕ) :
    rawAt p s K i = pairContrib p s K i (a, σ) (b, τ) := by
  have hpl : pairList s = [(a, σ), (b, τ)] := by
    simp [pairList, ha, hs]
  unfold rawAt
  rw [hpl]
  simp only [List.map_cons, List.map_nil, List.sum_cons, List.sum_nil]
  have h11 : pairContrib p s K i (a, σ) (a, σ) = 0 := by
    unfold pairContrib
    rw [if_neg]
    simp [distSq_self]
  have h22 : pairContrib p s K i (b, τ) (b, τ) = 0 := by
    unfold pairContrib
    rw [if_neg]
    simp [distSq_self]
  have h21 : pairContrib p s K i (b, τ) (a, σ) = pairContrib p s K i (a, σ) (b, τ) :=
    pairContrib_swap p s K i (a, σ) (b, τ)
  rw [h11, h22, h21]
  ring

lemma corrEnv_nonpos {ξ : ℚ} (h : ξ ≤ 0) (dsq : ℚ) : corrEnv ξ dsq = 1 := by
  unfold corrEnv
  rw [if_pos h]

lemma corrEnv_pos (ξ dsq : ℚ) : 0 < corrEnv ξ dsq := by
  unfold corrEnv
  split
  · exact one_pos
  · exact Real.exp_pos _

lemma dimer_distSq : distSq ((0 : ℚ), (0 : ℚ), (0 : ℚ)) ((4 : ℚ), (0 : ℚ), (0 : ℚ)) = 16 := by
  norm_num [distSq, dot, Prod.mk_sub_mk]

lemma dimer_projWeight (ε : ℚ) :
    projWeight ((0 : ℚ), (0 : ℚ), (1 : ℚ)) ((0 : ℚ), (0 : ℚ), ε)
      (((4 : ℚ), (0 : ℚ), (0 : ℚ)) - ((0 : ℚ), (0 : ℚ), (0 : ℚ))) = ε := by
  norm_num [projWeight, dot, Prod.mk_sub_mk]

lemma dimer_rawAt (p : CalcParams) (K : Kernels) (s : MagStructure) (ε : ℚ)
    (ha : s.atoms = [((0 : ℚ), (0 : ℚ), (0 : ℚ)), ((4 : ℚ), (0 : ℚ), (0 : ℚ))])
    (hs : s.spins = [((0 : ℚ), (0 : ℚ), (1 : ℚ)), ((0 : ℚ), (0 : ℚ), ε)])
    (hff : s.ffScalar = 1) (i : ℕ) :
    rawAt p s K i =
      if inRangeB p 16 ∧ binIndex p 16 = i then
        (ε : ℝ) * K.uisoEnv s.Uiso 16 * corrEnv s.corrLength 16
      else 0 := by
  rw [two_site_rawAt p K s _ _ _ _ ha hs i]
  unfold pairContrib
  simp only [dimer_distSq, dimer_projWeight, hff]
  by_cases hcond : inRangeB p 16 ∧ binIndex p 16 = i
  · rw [if_pos ⟨by norm_num, hcond.1, hcond.2⟩, if_pos hcond]
    push_cast
    ring
  · rw [if_neg (fun hc => hcond ⟨hc.2.1, hc.2.2⟩), if_neg hcond]

lemma dimer_norm_getD (p : CalcParams) (K : Kernels) (s : MagStructure) (ε : ℚ)
    (ha : s.atoms = [((0 : ℚ), (0 : ℚ), (0 : ℚ)), ((4 : ℚ), (0 : ℚ), (0 : ℚ))])
    (hs : s.spins = [((0 : ℚ), (0 : ℚ), (1 : ℚ)), ((0 : ℚ), (0 : ℚ), ε)])
    (hff : s.ffScalar = 1) (hq : p.qmin = 0 ∧ p.qmax = 0 ∧ p.qdamp = 0) (j : ℕ) :
    (calcNormalizedCore p s K).getD j 0 =
      if j < gridLen p ∧ inRangeB p 16 ∧ binIndex p 16 = j then
        (p.ordScale : ℝ) * ((ε : ℝ) * K.uisoEnv s.Uiso 16 * corrEnv s.corrLength 16) /
          K.normConst 2
      else 0 := by
  have hlen : s.spins.length = 2 := by rw [hs]; rfl
  unfold calcNormalizedCore pairTermOutput filtered rawSignal
  rw [if_pos hq, hlen, List.map_map, List.map_map]
  rw [getD_range_map]
  by_cases h1 : j < gridLen p
  · rw [if_pos h1]
    simp only [Function.comp_apply]
    rw [dimer_rawAt p K s ε ha hs hff j]
    by_cases h2 : inRangeB p 16 ∧ binIndex p 16 = j
    · rw [if_pos h2, if_pos ⟨h1, h2.1, h2.2⟩]
    · rw [if_neg h2, if_neg (fun hc => h2 ⟨hc.2.1, hc.2.2⟩)]
      simp
  · rw [if_neg h1, if_neg (fun hc => h1 hc.1)]

/-- C1: for the two-atom structure with atoms at (0,0,0) and (4,0,0) and spins
(0,0,1) and (0,0,-1), a calculator with `rmin = 0` and `rmax = 15` (and every
admissible kernel assignment) returns an output whose only nonzero value sits
at the grid point `r = 4` and is negative; recomputing with the second spin
changed to (0,0,1) negates the output pointwise, so the peak sits at the same
position `r = 4` with positive sign and unchanged amplitude magnitude. -/
theorem dimer_afm_single_negative_peak_and_sign_flip :
    ∀ K : Kernels,
      (rgrid dimerParams).getD 400 0 = 4
    ∧ (calcNormalizedCore dimerParams dimerAFM K).getD 400 0 < 0
    ∧ (∀ j, j ≠ 400 → (calcNormalizedCore dimerParams dimerAFM K).getD j 0 = 0)
    ∧ (∀ j, (calcNormalizedCore dimerParams dimerFM K).getD j 0 =
        -((calcNormalizedCore dimerParams dimerAFM K).getD j 0)) := by
  intro K
  have hAFM : ∀ j, (calcNormalizedCore dimerParams dimerAFM K).getD j 0 =
      if j < gridLen dimerParams ∧ inRangeB dimerParams 16 ∧ binIndex dimerParams 16 = j then
        (dimerParams.ordScale : ℝ) *
          ((((-1 : ℚ)) : ℝ) * K.uisoEnv dimerAFM.Uiso 16 * corrEnv dimerAFM.corrLength 16) /
          K.normConst 2
      else 0 :=
    fun j => dimer_norm_getD dimerParams K dimerAFM (-1) rfl rfl rfl ⟨rfl, rfl, rfl⟩ j
  have hFM : ∀ j, (calcNormalizedCore dimerParams dimerFM K).getD j 0 =
      if j < gridLen dimerParams ∧ inRangeB dimerParams 16 ∧ binIndex dimerParams 16 = j then
        (dimerParams.ordScale : ℝ) *
          (((1 : ℚ) : ℝ) * K.uisoEnv dimerFM.Uiso 16 * corrEnv dimerFM.corrLength 16) /
          K.normConst 2
      else 0 :=
    fun j => dimer_norm_getD dimerParams K dimerFM 1 rfl rfl rfl ⟨rfl, rfl, rfl⟩ j
  have hUeq : dimerFM.Uiso = dimerAFM.Uiso := rfl
  have hCeq : dimerFM.corrLength = dimerAFM.corrLength := rfl
  have hCzero : corrEnv dimerAFM.corrLength 16 = 1 := corrEnv_nonpos (le_of_eq rfl) 16
  have hu : 0 < K.uisoEnv dimerAFM.Uiso 16 := K.uisoEnv_pos _ _
  have hn : 0 < K.normConst 2 := K.normConst_pos 2
  refine ⟨?_, ?_, ?_, ?_⟩
  · unfold rgrid
    rw [gridLen_dimerParams, getD_range_map, if_pos (by omega)]
    norm_num [dimerParams]
  · rw [hAFM 400,
      if_pos ⟨by rw [gridLen_dimerParams]; omega, inRangeB_dimerParams, binIndex_dimerParams⟩,
      hCzero]
    have hord : (dimerParams.ordScale : ℝ) = 1 := by norm_num [dimerParams]
    rw [hord]
    push_cast
    apply div_neg_of_neg_of_pos _ hn
    nlinarith
  · intro j hj
    have hne : ¬(j < gridLen dimerParams ∧ inRangeB dimerParams 16 = true ∧
        binIndex dimerParams 16 = j) := by
      rintro ⟨-, -, hbin⟩
      rw [binIndex_dimerParams] at hbin
      exact hj hbin.symm
    rw [hAFM j, if_neg hne]
  · intro j
    rw [hFM j, hAFM j, hUeq, hCeq]
    by_cases h : j < gridLen dimerParams ∧ inRangeB dimerParams 16 ∧ binIndex dimerParams 16 = j
    · rw [if_pos h, if_pos h]
      push_cast
      ring
    · rw [if_neg h, if_neg h]
      simp

/-- Witness for C1: the antiferromagnetic dimer output vanishes away from the
peak bin, e.g. at grid index 7, under the concrete kernel assignment `K0`. -/
theorem dimer_afm_single_negative_peak_and_sign_flip_witness :
    (calcNormalizedCore dimerParams dimerAFM K0).getD 7 0 = 0 :=
  (dimer_afm_single_negative_peak_and_sign_flip K0).2.2.1 7 (by omega)

lemma reC_add (v w : CVec3) : reC (v + w) = reC v + reC w := by
  simp [reC, Prod.ext_iff, Complex.add_re]

lemma reC_zero : reC 0 = 0 := by
  simp [reC, Prod.ext_iff]

lemma reC_sum (l : List CVec3) : reC l.sum = (l.map reC).sum := by
  induction l with
  | nil => simpa using reC_zero
  | cons a t ih => simp [List.sum_cons, reC_add, ih]

lemma phaseFactor_re (φ : ℚ) : (phaseFactor φ).re = Real.cos (2 * Real.pi * (φ : ℝ)) := by
  unfold phaseFactor
  exact Complex.exp_ofReal_mul_I_re _

lemma phaseFactor_im (φ : ℚ) : (phaseFactor φ).im = Real.sin (2 * Real.pi * (φ : ℝ)) := by
  unfold phaseFactor
  exact Complex.exp_ofReal_mul_I_im _

lemma reC_term (pr : Vec3 × Vec3 × Vec3) (x : Vec3) :
    reC (smulC (phaseFactor (dot pr.1 x)) (toC pr.2.1 pr.2.2)) = cosSinTerm pr x := by
  simp only [smulC, toC, reC, cosSinTerm, Complex.mul_re, phaseFactor_re, phaseFactor_im]

lemma spinSumC_append (prs₁ prs₂ : List (Vec3 × Vec3 × Vec3)) (x : Vec3) :
    spinSumC (prs₁ ++ prs₂) x = spinSumC prs₁ x + spinSumC prs₂ x := by
  simp [spinSumC, List.map_append, List.sum_append]

/-- C2: the spin a species generates at lattice translation `T` and basis
position `d` is the real part of `Σ_k S_k exp (2 π i k ⬝ (T + d - origin))`,
written out as the trigonometric superposition
`Σ_k (Re S_k cos (2 π φ_k) - Im S_k sin (2 π φ_k))`; contributions from
multiple (k, S_k) pairs superpose linearly over list concatenation; and the
checked generator returns the non-real-spin flag exactly when the imaginary
part of the sum exceeds the numerical tolerance, returning the real part
otherwise rather than silently truncating. -/
theorem makeSpins_fourier_real_superposition_flag :
    ∀ (sp : MagSpecies) (T d : Vec3) (tol : ℚ),
      sp.makeSpinAt T d =
        ((kvecPairs sp).map (fun pr => cosSinTerm pr (T + d - sp.origin))).sum
    ∧ (∀ (prs₁ prs₂ : List (Vec3 × Vec3 × Vec3)) (x : Vec3),
        spinSumC (prs₁ ++ prs₂) x = spinSumC prs₁ x + spinSumC prs₂ x)
    ∧ (sp.makeSpinChecked T d tol = .error .nonRealSpin ↔ spinIllFormed sp T d tol)
    ∧ (sp.makeSpinChecked T d tol = .ok (sp.makeSpinAt T d) ↔ ¬ spinIllFormed sp T d tol) := by
  intro sp T d tol
  refine ⟨?_, spinSumC_append, ?_, ?_⟩
  · unfold MagSpecies.makeSpinAt makeSpinFree spinSumC
    rw [reC_sum, List.map_map]
    congr 1
    exact List.map_congr_left (fun pr _ => reC_term pr (T + d - sp.origin))
  · by_cases h : spinIllFormed sp T d tol
    · unfold MagSpecies.makeSpinChecked
      rw [if_pos h]
      simp [h]
    · unfold MagSpecies.makeSpinChecked
      rw [if_neg h]
      simp [h]
  · by_cases h : spinIllFormed sp T d tol
    · unfold MagSpecies.makeSpinChecked
      rw [if_pos h]
      simp [h]
    · unfold MagSpecies.makeSpinChecked
      rw [if_neg h]
      simp [h]

lemma corrEnv_eight_sixteen : corrEnv 8 16 = Real.exp (-(1/2)) := by
  unfold corrEnv
  rw [if_neg (by norm_num)]
  have h16 : ((16 : ℚ) : ℝ) = 16 := by norm_num
  rw [h16, show (16 : ℝ) = 4 ^ 2 by norm_num, Real.sqrt_sq (by norm_num)]
  norm_num

/-- Counterexample to C3 as stated: two structures with identical atom and
spin arrays, computed with an identical calculator configuration and kernel
assignment, give different outputs because the structure's own scalar
attribute `corrLength` (which lives on the structure, not in the calculator's
scalar configuration) also enters the calculation. -/
theorem calc_depends_on_structure_scalars_cex :
    dimerAFM.atoms = dimerAFMcorr.atoms ∧ dimerAFM.spins = dimerAFMcorr.spins ∧
    calcNormalizedCore coarseParams dimerAFM K0 ≠ calcNormalizedCore coarseParams dimerAFMcorr K0 := by
  refine ⟨rfl, rfl, fun hEq => ?_⟩
  have h1 := dimer_norm_getD coarseParams K0 dimerAFM (-1) rfl rfl rfl ⟨rfl, rfl, rfl⟩ 4
  have h2 := dimer_norm_getD coarseParams K0 dimerAFMcorr (-1) rfl rfl rfl ⟨rfl, rfl, rfl⟩ 4
  rw [hEq] at h1
  have hcond : 4 < gridLen coarseParams ∧ inRangeB coarseParams 16 = true ∧
      binIndex coarseParams 16 = 4 :=
    ⟨by rw [gridLen_coarseParams]; omega, inRangeB_coarseParams, binIndex_coarseParams⟩
  rw [if_pos hcond] at h1 h2
  have hv := h1.symm.trans h2
  have e0 : (coarseParams.ordScale : ℝ) = 1 := by norm_num [coarseParams]
  have e1 : corrEnv dimerAFM.corrLength 16 = 1 := corrEnv_nonpos (le_of_eq rfl) 16
  have e2 : corrEnv dimerAFMcorr.corrLength 16 = Real.exp (-(1/2)) := corrEnv_eight_sixteen
  have e3 : K0.uisoEnv dimerAFM.Uiso 16 = 1 := rfl
  have e4 : K0.uisoEnv dimerAFMcorr.Uiso 16 = 1 := rfl
  have e5 : K0.normConst 2 = 1 := rfl
  rw [e0, e1, e2, e3, e4, e5] at hv
  push_cast at hv
  have hexp : Real.exp (-(1/2)) = 1 := by linarith
  have := (Real.exp_eq_one_iff (-(1/2))).mp hexp
  norm_num at this

/-- C3 amended: `calc()` is a deterministic pure function of the calculator's
scalar configuration together with the referenced structure's current state
(its atom/spin arrays and its own scalar attributes `Uiso`, `corrLength`,
form factor and calculation indices); two calculator runs with no mutation in
between return identical outputs; and mutating the referenced structure's
spins between two calls changes the second call's result exactly as if the
calculator had been attached to the mutated structure, with no re-attachment
needed. -/
theorem calc_pure_function_of_state_and_reference_semantics :
    ∀ (K : Kernels) (p : CalcParams) (s₁ s₂ : MagStructure) (w : World) (c : CalcHandle)
      (i : ℕ) (sp : List Vec3),
      (s₁.atoms = s₂.atoms → s₁.spins = s₂.spins → s₁.Uiso = s₂.Uiso →
        s₁.corrLength = s₂.corrLength → s₁.ffScalar = s₂.ffScalar →
        s₁.calcIdxs = s₂.calcIdxs → calcBothCore p s₁ K = calcBothCore p s₂ K)
    ∧ execCmds K w [Cmd.runcalc c, Cmd.runcalc c] = [runCalc K w c, runCalc K w c]
    ∧ (c.sref = i →
        execCmds K w [Cmd.setspins i sp, Cmd.runcalc c] =
          [calcBothCore c.params { w.strucs i with spins := sp } K]) := by
  intro K p s₁ s₂ w c i sp
  refine ⟨?_, ?_, ?_⟩
  · intro h1 h2 h3 h4 h5 h6
    unfold calcBothCore calcNormalizedCore calcUnnormalizedCore pairTermOutput rawSignal rawAt
      selfSignal pairList pairContrib
    simp only [h1, h2, h3, h4, h5, h6]
  · simp [execCmds]
  · intro hcf
    simp only [execCmds, runCalc, World.setSpins]
    rw [hcf, Function.update_same]

/-- Witness for C3 (amended): the purity clause and the reference-semantics
clause applied to the concrete dimer world. -/
theorem calc_pure_function_of_state_and_reference_semantics_witness :
    calcBothCore dimerParams dimerAFM K0 = calcBothCore dimerParams dimerAFM K0 ∧
    execCmds K0 ⟨fun _ => dimerAFM, 1⟩ [Cmd.setspins 0 [], Cmd.runcalc ⟨dimerParams, 0⟩] =
      [calcBothCore dimerParams { dimerAFM with spins := ([] : List Vec3) } K0] :=
  ⟨(calc_pure_function_of_state_and_reference_semantics K0 dimerParams dimerAFM dimerAFM
      ⟨fun _ => dimerAFM, 1⟩ ⟨dimerParams, 0⟩ 0 []).1 rfl rfl rfl rfl rfl rfl,
    (calc_pure_function_of_state_and_reference_semantics K0 dimerParams dimerAFM dimerAFM
      ⟨fun _ => dimerAFM, 1⟩ ⟨dimerParams, 0⟩ 0 []).2.2 rfl⟩

/-- C5: `copy()` produces a deep duplicate sharing no mutable state with the
original: running the calculation on the copy of a structure (or on a copied
calculator) before any mutation is bit-identical to running it on the
original, and mutating the copy's `Uiso` or `corrLength` leaves the
original's subsequent output unchanged. -/
theorem copy_deep_duplicate_independence :
    ∀ (K : Kernels) (w : World) (i : ℕ) (pm : CalcParams) (v₁ v₂ : ℚ),
      i < w.next →
      runCalc K (w.copyStructure i).1 ⟨pm, (w.copyStructure i).2⟩ = runCalc K w ⟨pm, i⟩
    ∧ runCalc K ((w.copyStructure i).1.setUiso (w.copyStructure i).2 v₁) ⟨pm, i⟩ =
        runCalc K w ⟨pm, i⟩
    ∧ runCalc K ((w.copyStructure i).1.setCorrLength (w.copyStructure i).2 v₂) ⟨pm, i⟩ =
        runCalc K w ⟨pm, i⟩
    ∧ runCalc K (w.copyCalculator ⟨pm, i⟩).1 (w.copyCalculator ⟨pm, i⟩).2 =
        runCalc K w ⟨pm, i⟩
    ∧ runCalc K ((w.copyCalculator ⟨pm, i⟩).1.setUiso (w.copyCalculator ⟨pm, i⟩).2.sref v₁)
        ⟨pm, i⟩ = runCalc K w ⟨pm, i⟩ := by
  intro K w i pm v₁ v₂ hi
  have hne : i ≠ w.next := Nat.ne_of_lt hi
  refine ⟨?_, ?_, ?_, ?_, ?_⟩
  · unfold runCalc World.copyStructure
    simp [Function.update_same]
  · unfold runCalc World.setUiso World.copyStructure
    simp [Function.update_noteq hne]
  · unfold runCalc World.setCorrLength World.copyStructure
    simp [Function.update_noteq hne]
  · unfold runCalc World.copyCalculator World.copyStructure
    simp [Function.update_same]
  · unfold runCalc World.copyCalculator World.setUiso World.copyStructure
    simp [Function.update_noteq hne]

/-- Witness for C5: the copy/mutate independence applied to a concrete
one-structure world holding the dimer. -/
theorem copy_deep_duplicate_independence_witness :
    (0 : ℕ) < (1 : ℕ) ∧
    runCalc K0 ((⟨fun _ => dimerAFM, 1⟩ : World).copyStructure 0).1
        ⟨dimerParams, ((⟨fun _ => dimerAFM, 1⟩ : World).copyStructure 0).2⟩ =
      runCalc K0 ⟨fun _ => dimerAFM, 1⟩ ⟨dimerParams, 0⟩ :=
  ⟨Nat.one_pos,
    (copy_deep_duplicate_independence K0 ⟨fun _ => dimerAFM, 1⟩ 0 dimerParams 0 0 Nat.one_pos).1⟩

lemma pairTermOutput_length (p : CalcParams) (s : MagStructure) (K : Kernels) :
    (pairTermOutput p s K).length = gridLen p := by
  unfold pairTermOutput filtered rawSignal
  rw [List.length_map]
  split
  · simp
  · simp [K.resFilter_length]

lemma selfSignal_length (p : CalcParams) (s : MagStructure) (K : Kernels) :
    (selfSignal p s K).length = gridLen p := by
  unfold selfSignal rgrid
  simp

lemma calcNormalizedCore_length (p : CalcParams) (s : MagStructure) (K : Kernels) :
    (calcNormalizedCore p s K).length = gridLen p := by
  unfold calcNormalizedCore
  rw [List.length_map, pairTermOutput_length]

lemma calcUnnormalizedCore_length (p : CalcParams) (s : MagStructure) (K : Kernels) :
    (calcUnnormalizedCore p s K).length = gridLen p := by
  unfold calcUnnormalizedCore
  rw [List.length_zipWith, pairTermOutput_length, selfSignal_length, min_self]

/-- C4: the calculator offers the normalized output (`calcN`, the default
`calc()`) and the unnormalized output (`calcD`, `calc(normalized=False)`) as
two selectable variants; the single combined call (`calcBothM`,
`calc(both=True)`) returns the grid together with both of them, the
unnormalized one being the total that includes the self/paramagnetic term:
pointwise it equals the normalized mPDF scaled back by the normalization
constant plus the self-term signal. -/
theorem calc_variants_normalized_unnormalized_total :
    ∀ (cl : MPDFcalculator) (K : Kernels),
      cl.calcN K = (rgrid cl.params, calcNormalizedCore cl.params cl.struc K)
    ∧ cl.calcD K = (rgrid cl.params, calcUnnormalizedCore cl.params cl.struc K)
    ∧ cl.calcBothM K = ((cl.calcN K).1, (cl.calcN K).2, (cl.calcD K).2)
    ∧ (∀ i, (cl.calcD K).2.getD i 0 =
        ((cl.calcN K).2.getD i 0) * K.normConst cl.struc.spins.length +
          (selfSignal cl.params cl.struc K).getD i 0) := by
  intro cl K
  refine ⟨rfl, rfl, rfl, ?_⟩
  intro i
  have hD : (cl.calcD K).2 = calcUnnormalizedCore cl.params cl.struc K := rfl
  have hN : (cl.calcN K).2 = calcNormalizedCore cl.params cl.struc K := rfl
  rw [hD, hN]
  unfold calcUnnormalizedCore calcNormalizedCore
  rw [getD_zipWith_add _ _ i (by rw [pairTermOutput_length, selfSignal_length]),
    getD_map_of_zero (fun v => v / K.normConst cl.struc.spins.length) (by simp) _ i,
    div_mul_cancel₀ _ (ne_of_gt (K.normConst_pos _))]

/-- C6: the outputs of the calculation have exactly the configured grid
length, and applying the same permutation to both the atom array and the spin
array (phrased as a permutation of the zipped (atom, spin) site list) leaves
the whole output unchanged. -/
theorem calc_grid_length_and_permutation_invariance :
    ∀ (p : CalcParams) (K : Kernels) (s : MagStructure) (a₁ sp₁ a₂ sp₂ : List Vec3),
      a₁.length = sp₁.length → a₂.length = sp₂.length →
      (a₁.zip sp₁).Perm (a₂.zip sp₂) →
      calcBothCore p (s.withArrays a₁ sp₁) K = calcBothCore p (s.withArrays a₂ sp₂) K
    ∧ (calcNormalizedCore p s K).length = gridLen p
    ∧ (calcUnnormalizedCore p s K).length = gridLen p
    ∧ (rgrid p).length = gridLen p := by
  intro p K s a₁ sp₁ a₂ sp₂ h₁ h₂ hperm
  refine ⟨?_, calcNormalizedCore_length p s K, calcUnnormalizedCore_length p s K,
    by simp [rgrid]⟩
  have hraw : ∀ i, rawAt p (s.withArrays a₁ sp₁) K i = rawAt p (s.withArrays a₂ sp₂) K i := by
    intro i
    have hctr : pairContrib p (s.withArrays a₁ sp₁) K i =
        pairContrib p (s.withArrays a₂ sp₂) K i := rfl
    unfold rawAt pairList
    rw [hctr]
    exact congrArg _ (doubleSum_perm _ hperm)
  have hsig : rawSignal p (s.withArrays a₁ sp₁) K = rawSignal p (s.withArrays a₂ sp₂) K := by
    unfold rawSignal
    exact List.map_congr_left (fun i _ => hraw i)
  have hpt : pairTermOutput p (s.withArrays a₁ sp₁) K =
      pairTermOutput p (s.withArrays a₂ sp₂) K := by
    unfold pairTermOutput
    rw [hsig]
  have hn : (s.withArrays a₁ sp₁).spins.length = (s.withArrays a₂ sp₂).spins.length := by
    have hl := hperm.length_eq
    rw [List.length_zip, List.length_zip] at hl
    show sp₁.length = sp₂.length
    omega
  have hself : selfSignal p (s.withArrays a₁ sp₁) K = selfSignal p (s.withArrays a₂ sp₂) K := rfl
  unfold calcBothCore calcNormalizedCore calcUnnormalizedCore
  rw [hpt, hn, hself]

/-- Witness for C6: swapping the two sites of a concrete two-site structure
consistently in both arrays leaves the output unchanged. -/
theorem calc_grid_length_and_permutation_invariance_witness :
    calcBothCore coarseParams
        ((newMagStructure []).withArrays
          [((0 : ℚ), (0 : ℚ), (0 : ℚ)), ((1 : ℚ), (0 : ℚ), (0 : ℚ))]
          [((0 : ℚ), (0 : ℚ), (1 : ℚ)), ((0 : ℚ), (0 : ℚ), (2 : ℚ))]) K0 =
      calcBothCore coarseParams
        ((newMagStructure []).withArrays
          [((1 : ℚ), (0 : ℚ), (0 : ℚ)), ((0 : ℚ), (0 : ℚ), (0 : ℚ))]
          [((0 : ℚ), (0 : ℚ), (2 : ℚ)), ((0 : ℚ), (0 : ℚ), (1 : ℚ))]) K0 :=
  (calc_grid_length_and_permutation_invariance coarseParams K0 (newMagStructure [])
    [((0 : ℚ), (0 : ℚ), (0 : ℚ)), ((1 : ℚ), (0 : ℚ), (0 : ℚ))]
    [((0 : ℚ), (0 : ℚ), (1 : ℚ)), ((0 : ℚ), (0 : ℚ), (2 : ℚ))]
    [((1 : ℚ), (0 : ℚ), (0 : ℚ)), ((0 : ℚ), (0 : ℚ), (0 : ℚ))]
    [((0 : ℚ), (0 : ℚ), (2 : ℚ)), ((0 : ℚ), (0 : ℚ), (1 : ℚ))]
    (by decide) (by decide) (by decide)).1

/-- C7: the pair-term output of the calculation is linear in `ordScale`:
scaling `ordScale` by a constant scales the pair-term output (and hence the
normalized output) pointwise by that constant, and `ordScale = 0` yields a
pair-term output that is exactly zero everywhere. -/
theorem pair_term_linear_in_ordScale :
    ∀ (p : CalcParams) (s : MagStructure) (K : Kernels) (c : ℚ),
      pairTermOutput { p with ordScale := c * p.ordScale } s K =
        (pairTermOutput p s K).map (fun v => (c : ℝ) * v)
    ∧ calcNormalizedCore { p with ordScale := c * p.ordScale } s K =
        (calcNormalizedCore p s K).map (fun v => (c : ℝ) * v)
    ∧ (∀ i, (pairTermOutput { p with ordScale := 0 } s K).getD i 0 = 0) := by
  intro p s K c
  have hbase : pairTermOutput { p with ordScale := c * p.ordScale } s K =
      (filtered p K (rawSignal p s K)).map (fun v => ((c * p.ordScale : ℚ) : ℝ) * v) := rfl
  have hscale : pairTermOutput { p with ordScale := c * p.ordScale } s K =
      (pairTermOutput p s K).map (fun v => (c : ℝ) * v) := by
    rw [hbase]
    unfold pairTermOutput
    rw [List.map_map]
    exact List.map_congr_left (fun v _ => by
      show ((c * p.ordScale : ℚ) : ℝ) * v = (c : ℝ) * ((p.ordScale : ℝ) * v)
      push_cast
      ring)
  refine ⟨hscale, ?_, ?_⟩
  · unfold calcNormalizedCore
    rw [hscale, List.map_map, List.map_map]
    exact List.map_congr_left (fun v _ => by
      show (c : ℝ) * v / K.normConst s.spins.length = (c : ℝ) * (v / K.normConst s.spins.length)
      ring)
  · intro i
    have h0 : pairTermOutput { p with ordScale := 0 } s K =
        (filtered p K (rawSignal p s K)).map (fun v => ((0 : ℚ) : ℝ) * v) := rfl
    rw [h0, getD_map_of_zero (fun v => ((0 : ℚ) : ℝ) * v) (by simp) _ i]
    simp

/-- C8: on a freshly built magnetic structure whose arrays have never been
generated, calling `makeSpins` before `makeAtoms` fails immediately with an
OrderError rather than silently defaulting; once `makeAtoms` has run,
`makeSpins` succeeds and positions one spin per generated atom. -/
theorem makeSpins_before_makeAtoms_orderError :
    ∀ (specs : List MagSpecies) (gen gen₂ : Vec3 → Vec3) (atomlist : List Vec3),
      (newMagStructure specs).makeSpins gen = .error .orderError
    ∧ ((newMagStructure specs).makeAtoms atomlist).makeSpins gen₂ =
        .ok { (newMagStructure specs).makeAtoms atomlist with spins := atomlist.map gen₂ } := by
  intro specs gen gen₂ atomlist
  exact ⟨rfl, rfl⟩

/-- C9: `loadSpecies` appends the species to the ordered collection; a label
colliding with an already-loaded species fails with a DuplicateLabelError; an
unset label is auto-assigned an identifier not in use, so the load
succeeds. -/
theorem loadSpecies_append_duplicate_autolabel :
    ∀ (s : MagStructure) (sp : MagSpecies),
      (∀ l, sp.label = some l → l ∈ usedLabels s →
        s.loadSpecies sp = .error .duplicateLabel)
    ∧ (∀ l, sp.label = some l → l ∉ usedLabels s →
        s.loadSpecies sp = .ok { s with species := s.species ++ [sp] })
    ∧ (sp.label = none → ∃ lf, lf ∉ usedLabels s ∧
        s.loadSpecies sp =
          .ok { s with species := s.species ++ [{ sp with label := some lf }] }) := by
  intro s sp
  refine ⟨?_, ?_, ?_⟩
  · intro l hl hmem
    unfold MagStructure.loadSpecies
    rw [hl]
    simp [hmem]
  · intro l hl hmem
    unfold MagStructure.loadSpecies
    rw [hl]
    simp [hmem]
  · intro h0
    refine ⟨freshLabel s, freshLabel_not_mem s, ?_⟩
    unfold MagStructure.loadSpecies
    rw [h0]

/-- Witness for C9: a duplicate label is rejected, a fresh label is appended,
and an unset label is auto-assigned, on a concrete one-species structure. -/
theorem loadSpecies_append_duplicate_autolabel_witness :
    (newMagStructure [{ label := some 5 }]).loadSpecies { label := some 5 } =
      .error .duplicateLabel
  ∧ (newMagStructure [{ label := some 5 }]).loadSpecies { label := some 7 } =
      .ok { newMagStructure [{ label := some 5 }] with
              species := (newMagStructure [{ label := some 5 }]).species ++ [{ label := some 7 }] }
  ∧ ∃ lf, lf ∉ usedLabels (newMagStructure [{ label := some 5 }]) ∧
      (newMagStructure [{ label := some 5 }]).loadSpecies { label := none } =
        .ok { newMagStructure [{ label := some 5 }] with
                species := (newMagStructure [{ label := some 5 }]).species ++
                  [{ (({ label := none } : MagSpecies)) with label := some lf }] } :=
  ⟨(loadSpecies_append_duplicate_autolabel (newMagStructure [{ label := some 5 }])
      { label := some 5 }).1 5 rfl (by decide),
    (loadSpecies_append_duplicate_autolabel (newMagStructure [{ label := some 5 }])
      { label := some 7 }).2.1 7 rfl (by decide),
    (loadSpecies_append_duplicate_autolabel (newMagStructure [{ label := some 5 }])
      { label := none }).2.2 rfl⟩

/-- C10: a calculator constructed with no magnetic structure argument and
later given a structure by assigning its `magstruc` attribute is the same
calculator state as one constructed with that structure, and hence behaves
identically on every subsequent calculation and plot call. -/
theorem late_magstruc_attach_equivalent :
    ∀ (s : MagStructure) (K : Kernels),
      (mkMPDFcalculator none).setMagstruc s = mkMPDFcalculator (some s)
    ∧ ((mkMPDFcalculator none).setMagstruc s).calcN K = (mkMPDFcalculator (some s)).calcN K
    ∧ ((mkMPDFcalculator none).setMagstruc s).calcD K = (mkMPDFcalculator (some s)).calcD K
    ∧ ((mkMPDFcalculator none).setMagstruc s).calcBothM K =
        (mkMPDFcalculator (some s)).calcBothM K
    ∧ ((mkMPDFcalculator none).setMagstruc s).plotData K =
        (mkMPDFcalculator (some s)).plotData K := by
  intro s K
  exact ⟨rfl, rfl, rfl, rfl, rfl⟩

end MPDF
